import Mathlib

/-
Verification of the PDFSplit splitting core.

Shallow embedding of `src/js/modules/pdfProcessor.js` (class `PDFProcessor`:
`splitPDF`, `splitByPages`, `splitByRanges`, `extractPages`,
`createPDFFromPages`, `generateFilename`) and of the option parsing embedded
in `deploy.sh` (`getSplitOptions`, `parsePageRanges`, `parsePageNumbers`).

JS numbers on these code paths are integers (results of `parseInt`,
`getPageCount`, and arithmetic on them), so they are modelled as `Int`;
`NaN` from `parseInt` is modelled as `Option.none`.  Serialization artifacts
(`url`, `size`, the PDF byte encoding) are outside the embedding: a split
result is modelled by its filename, its ordered list of 0-based source page
indices, and its `pageInfo` string, which is all the claims speak about.
-/

/-- JS `String.prototype.split` with a one-character separator, on character
lists: `"".split(sep)` is `[""]`, and every separator occurrence opens a new
(possibly empty) piece. -/
def jsSplit (sep : Char) : List Char → List (List Char)
  | [] => [[]]
  | c :: cs =>
    if c = sep then [] :: jsSplit sep cs
    else
      match jsSplit sep cs with
      | [] => [[c]]
      | piece :: pieces => (c :: piece) :: pieces

/-- JS `String.prototype.trim` on character lists: drop whitespace from both
ends. -/
def jsTrim (cs : List Char) : List Char :=
  ((cs.dropWhile Char.isWhitespace).reverse.dropWhile Char.isWhitespace).reverse

/-- Model of JS `parseInt` (radix 10) on character lists, restricted to what
the source feeds it: skip leading whitespace, optional sign, then the
maximal digit prefix; no digits means `NaN`, modelled as `none`.  Trailing
garbage is ignored, exactly as `parseInt` ignores it. -/
def parseIntChars (cs0 : List Char) : Option Int :=
  let cs := cs0.dropWhile Char.isWhitespace
  let signAndRest : Int × List Char :=
    match cs with
    | '-' :: t => (-1, t)
    | '+' :: t => (1, t)
    | t => (1, t)
  let ds := signAndRest.2.takeWhile Char.isDigit
  if ds.isEmpty then none
  else some (signAndRest.1 * (ds.foldl (fun a c => a * 10 + (c.toNat - '0'.toNat)) 0 : Nat))

/-- JS `parseInt` on strings. -/
def parseInt (s : String) : Option Int :=
  parseIntChars s.data

/-- `ClosedRange { start, end }` from the spec / the object literals built by
`parsePageRanges` in `deploy.sh`.  The source field `end` is a Lean keyword,
so it is named `stop` here. -/
structure PageRange where
  start : Int
  stop : Int
deriving DecidableEq, Repr

/-- Embedding of `parsePageRanges` (deploy.sh lines 511-531): split on `,`,
trim each part; a part containing `-` is split on `-` and its first two
pieces are parsed, kept when both are truthy (non-`NaN`, non-zero) and
`start <= end`; a bare part is kept as a singleton range when truthy. -/
def parsePageRanges (rangesString : String) : List PageRange :=
  (jsSplit ',' rangesString.data).filterMap (fun part =>
    let trimmed := jsTrim part
    if trimmed.contains '-' then
      let nums := (jsSplit '-' trimmed).map (fun n => parseIntChars (jsTrim n))
      match nums[0]?, nums[1]? with
      | some (some a), some (some b) =>
          if a ≠ 0 ∧ b ≠ 0 ∧ a ≤ b then some ⟨a, b⟩ else none
      | _, _ => none
    else
      match parseIntChars trimmed with
      | some p => if p ≠ 0 then some ⟨p, p⟩ else none
      | none => none)

/-- Embedding of `parsePageNumbers` (deploy.sh lines 536-541): split on `,`,
`parseInt` each trimmed part, keep the strictly positive ones (`NaN > 0` is
false, so `NaN` is dropped by the same filter), sort numerically ascending
(`.sort((a, b) => a - b)`). -/
def parsePageNumbers (pagesString : String) : List Int :=
  (((jsSplit ',' pagesString.data).filterMap (fun p => parseIntChars (jsTrim p))).filter
    (fun p => 0 < p)).insertionSort (· ≤ ·)

/-- Embedding of `getSplitOptions` for mode `"pages"` (deploy.sh lines
479-486): `parseInt` the field value and reject (`return null`) when the
result is falsy (`NaN` or `0`) or `< 1`. -/
def getSplitOptionsPages (value : String) : Option Int :=
  match parseInt value with
  | none => none
  | some k => if k = 0 ∨ k < 1 then none else some k

/-- One split result, keeping the fields of the object literals pushed by the
split functions that the claims are about (`url` and `size` are serialization
artifacts of the same page list and are not modelled). -/
structure SplitResult where
  filename : String
  pageIndices : List Int
  pageInfo : String
deriving DecidableEq, Repr

/-- Embedding of `generateFilename` (pdfProcessor.js lines 340-343):
`originalFilename.replace(/\.pdf$/i, '')` strips one trailing `.pdf` of any
letter case, then `_{suffix}.pdf` is appended. -/
def generateFilename (originalFilename suffix : String) : String :=
  let cs := originalFilename.data
  let nameWithoutExt : List Char :=
    if 4 ≤ cs.length ∧ (cs.drop (cs.length - 4)).map Char.toLower = ['.', 'p', 'd', 'f']
    then cs.take (cs.length - 4) else cs
  String.mk nameWithoutExt ++ "_" ++ suffix ++ ".pdf"

/-- The page index list built by the loop of `createPDFFromPages`
(pdfProcessor.js lines 312-316): `startPage, startPage+1, ..., endPage`,
empty when `startPage > endPage`. -/
def pageIndicesFromTo (startPage endPage : Int) : List Int :=
  (List.range (endPage - startPage + 1).toNat).map (fun j => startPage + Int.ofNat j)

/-- `validPages.join('-')` / `validPages.join(', ')` from `extractPages`. -/
def joinSep (sep : String) : List Int → String
  | [] => ""
  | [x] => toString x
  | x :: y :: xs => toString x ++ sep ++ joinSep sep (y :: xs)

/-- Embedding of the loop body of `splitByPages` for the chunk starting at
0-based page `i`, with its inclusive 0-based `endPage`. -/
def mkPagesResult (originalFilename : String) (startPage endPage : Int) : SplitResult :=
  { filename := generateFilename originalFilename
      ("pages_" ++ toString (startPage + 1) ++ "-" ++ toString (endPage + 1))
    pageIndices := pageIndicesFromTo startPage endPage
    pageInfo := "Pages " ++ toString (startPage + 1) ++ "-" ++ toString (endPage + 1) }

/-- Fuel-indexed embedding of the loop of `splitByPages` (pdfProcessor.js
lines 201-219): `for (let i = 0; i < totalPages; i += pagesPerFile)`.
`none` models the loop still running when the fuel is exhausted, which is
how the JS loop's divergence for `pagesPerFile <= 0` is made visible. -/
def splitByPagesLoop (totalPages pagesPerFile : Int) (originalFilename : String) :
    Int → Nat → Option (List SplitResult)
  | i, fuel =>
    if i < totalPages then
      match fuel with
      | 0 => none
      | fuel + 1 =>
        let endPage := min (i + pagesPerFile - 1) (totalPages - 1)
        (splitByPagesLoop totalPages pagesPerFile originalFilename (i + pagesPerFile) fuel).map
          (fun rest => mkPagesResult originalFilename i endPage :: rest)
    else some []

/-- Embedding of `splitByPages` (pdfProcessor.js lines 196-222).  The fuel
`totalPages.toNat` bounds the iteration count, which the loop never exceeds
when `pagesPerFile >= 1`; a `none` result means the JS loop does not
terminate. -/
def splitByPages (totalPages pagesPerFile : Int) (originalFilename : String) :
    Option (List SplitResult) :=
  splitByPagesLoop totalPages pagesPerFile originalFilename 0 totalPages.toNat

/-- Embedding of `splitByRanges` (pdfProcessor.js lines 231-263): for each
range in input order, clamp `start` to `max(1, start)`, `end` to
`min(end, totalPages)`, convert both to 0-based, skip the range (with only a
console warning) when `startPage > endPage` or a bound is outside
`[0, totalPages)`, otherwise emit the result for `[startPage, endPage]`. -/
def rangeToResult (totalPages : Int) (originalFilename : String)
    (range : PageRange) : Option SplitResult :=
  let startPage := max 1 range.start - 1
  let endPage := min range.stop totalPages - 1
  if startPage > endPage ∨ startPage < 0 ∨ totalPages ≤ endPage then none
  else some
    { filename := generateFilename originalFilename
        ("range_" ++ toString range.start ++ "-" ++ toString range.stop)
      pageIndices := pageIndicesFromTo startPage endPage
      pageInfo := "Pages " ++ toString range.start ++ "-" ++ toString range.stop }

/-- The loop of `splitByRanges`: each range in input order contributes its
result, or nothing when it is skipped. -/
def splitByRanges (totalPages : Int) (ranges : List PageRange)
    (originalFilename : String) : List SplitResult :=
  ranges.filterMap (rangeToResult totalPages originalFilename)

/-- Embedding of `extractPages` (pdfProcessor.js lines 272-301): keep the
pages inside `[1, totalPages]` in their given order, throw
`'No valid pages to extract'` when none survive, otherwise emit one result
whose 0-based indices are the surviving pages minus 1, in that order. -/
def extractPages (totalPages : Int) (pages : List Int) (originalFilename : String) :
    Except String (List SplitResult) :=
  let validPages := pages.filter (fun p => 1 ≤ p ∧ p ≤ totalPages)
  if validPages.isEmpty then .error "No valid pages to extract"
  else .ok
    [{ filename := generateFilename originalFilename
         ("extracted_pages_" ++ joinSep "-" validPages)
       pageIndices := validPages.map (fun p => p - 1)
       pageInfo := "Pages " ++ joinSep ", " validPages }]

deriving instance DecidableEq for Except

/-- The `options` object handed to `splitPDF`: the union of the fields the
three modes read. -/
structure SplitOptions where
  pagesPerFile : Int := 0
  ranges : List PageRange := []
  pages : List Int := []
deriving Repr

/-- A pdf-lib `PDFDocument`: its ordered list of pages, each page an abstract
content token. -/
structure PDFDocument where
  pages : List Nat
deriving DecidableEq, Repr

/-- The pdf-lib object store: every document created or loaded so far, in
creation order, identified by its index.  Mutation of a document is an update
of this store, so non-mutation of the source document is a statement about
the store before and after an operation. -/
structure PDFHeap where
  docs : List PDFDocument
deriving DecidableEq, Repr

/-- `PDFLib.PDFDocument.create()`: appends a fresh empty document to the
store and returns its identifier. -/
def PDFHeap.create (h : PDFHeap) : PDFHeap × Nat :=
  ({ docs := h.docs ++ [⟨[]⟩] }, h.docs.length)

/-- Look a document up in the store (a dangling identifier reads as an empty
document; the claims only use identifiers of existing documents). -/
def PDFHeap.getDoc (h : PDFHeap) (id : Nat) : PDFDocument :=
  h.docs.getD id ⟨[]⟩

/-- `newPDF.copyPages(source, indices)`: a read-only operation on the store
returning copies of the source document's pages at the given 0-based
indices, in the order given. -/
def PDFHeap.copyPages (h : PDFHeap) (srcId : Nat) (indices : List Int) : List Nat :=
  indices.filterMap (fun i => (h.getDoc srcId).pages.get? i.toNat)

/-- `doc.addPage(page)`: appends a page to the identified document, leaving
every other document in the store untouched. -/
def PDFHeap.addPage (h : PDFHeap) (id : Nat) (page : Nat) : PDFHeap :=
  { docs := h.docs.set id ⟨(h.getDoc id).pages ++ [page]⟩ }

/-- The create/copy/append skeleton shared by `createPDFFromPages`
(pdfProcessor.js lines 310-322) and the document-building part of
`extractPages` (lines 284-287): create a fresh empty document, copy the
source pages at `indices`, append each copy to the fresh document in
order. -/
def PDFHeap.copyPagesIntoNew (h : PDFHeap) (srcId : Nat) (indices : List Int) :
    PDFHeap × Nat :=
  let created := h.create
  let copiedPages := created.1.copyPages srcId indices
  (copiedPages.foldl (fun acc page => acc.addPage created.2 page) created.1, created.2)

/-- Stateful embedding of `createPDFFromPages` (pdfProcessor.js lines
310-322): `copyPagesIntoNew` at the contiguous index list
`startPage, ..., endPage`. -/
def PDFHeap.createPDFFromPages (h : PDFHeap) (srcId : Nat) (startPage endPage : Int) :
    PDFHeap × Nat :=
  h.copyPagesIntoNew srcId (pageIndicesFromTo startPage endPage)

/-- Embedding of `splitPDF` (pdfProcessor.js lines 176-187): dispatch on the
mode tag; any unrecognized tag throws `'Unsupported split mode'`.  The outer
`Option` is `none` exactly when the chosen branch diverges (only possible
for `"pages"` with `pagesPerFile <= 0`); `Except.error` models a thrown
`Error` with the given message. -/
def splitPDF (totalPages : Int) (mode : String) (options : SplitOptions)
    (originalFilename : String) : Option (Except String (List SplitResult)) :=
  match mode with
  | "pages" => (splitByPages totalPages options.pagesPerFile originalFilename).map Except.ok
  | "range" => some (.ok (splitByRanges totalPages options.ranges originalFilename))
  | "extract" => some (extractPages totalPages options.pages originalFilename)
  | _ => some (.error "Unsupported split mode")

/-! Theorems -/

/-- C10: for every mode tag outside `{"pages", "range", "extract"}` and every
document, options and filename, `splitPDF` throws the invalid-mode error
(`'Unsupported split mode'`) and produces no results: the unrecognized tag is
never silently ignored. -/
theorem C10_invalid_mode_fails_fast (mode : String) (totalPages : Int)
    (options : SplitOptions) (originalFilename : String)
    (h : mode ≠ "pages" ∧ mode ≠ "range" ∧ mode ≠ "extract") :
    splitPDF totalPages mode options originalFilename
      = some (.error "Unsupported split mode") := by
  unfold splitPDF
  split <;> simp_all

/-- Witness for C10 at the concrete tag `"bogus"`. -/
theorem C10_invalid_mode_fails_fast_witness :
    splitPDF 5 "bogus" {} "doc.pdf" = some (.error "Unsupported split mode") :=
  C10_invalid_mode_fails_fast "bogus" 5 {} "doc.pdf" (by decide)

/-- C2 fails on the code: `parsePageNumbers` sorts but does not deduplicate.
On the claim's own input `{3,1,1,5}` it returns `[1, 1, 3, 5]`, not
`[1, 3, 5]`, and extraction from a 5-page document therefore covers the
0-based indices `[0, 0, 2, 4]` — index `0` twice — not `[0, 2, 4]`. -/
theorem C2_dedup_counterexample :
    parsePageNumbers "3,1,1,5" = [1, 1, 3, 5] ∧
    parsePageNumbers "3,1,1,5" ≠ [1, 3, 5] ∧
    extractPages 5 (parsePageNumbers "3,1,1,5") "doc.pdf"
      = .ok [{ filename := "doc_extracted_pages_1-1-3-5.pdf",
               pageIndices := [0, 0, 2, 4],
               pageInfo := "Pages 1, 1, 3, 5" }] := by
  refine ⟨by decide, by decide, by decide⟩

/-- C2 amended: `parsePageNumbers` returns the positive entries numerically
sorted ascending but with duplicates preserved (it is a permutation of the
filtered input, not of its dedup); extracting `{3,1,1,5}` from a 5-page
document yields exactly one result covering the 0-based indices
`[0, 0, 2, 4]` in ascending order. -/
theorem C2_sorted_not_deduplicated (s : String) :
    (parsePageNumbers s).Sorted (· ≤ ·) ∧
    (parsePageNumbers s).Perm
      (((jsSplit ',' s.data).filterMap (fun p => parseIntChars (jsTrim p))).filter
        (fun p => 0 < p)) ∧
    (extractPages 5 (parsePageNumbers "3,1,1,5") "doc.pdf").map
        (fun rs => rs.map SplitResult.pageIndices)
      = .ok [[0, 0, 2, 4]] := by
  refine ⟨List.sorted_insertionSort _ _, List.perm_insertionSort _ _, by decide⟩

/-- C3 fails on the code: on the claim's own input `"3-1, abc"` (every
segment invalid) `parsePageRanges` returns the empty list instead of failing
with `EmptySpecificationError` — no such error exists anywhere in the
source; both parsers are total and never throw. -/
theorem C3_empty_spec_counterexample :
    parsePageRanges "3-1, abc" = [] := by decide

/-- C3 amended: when every segment of the range/page text is invalid the
parsers return the empty list and raise no error; the split engine then
simply produces zero results.  Shown on `"3-1, abc"` for ranges (through
`splitByRanges` and the full `splitPDF` dispatch) and on `"abc, 0, -2"` for
page lists. -/
theorem C3_empty_spec_returns_empty_list :
    parsePageNumbers "abc, 0, -2" = [] ∧
    (∀ (totalPages : Int) (originalFilename : String),
      splitByRanges totalPages (parsePageRanges "3-1, abc") originalFilename = []) ∧
    splitPDF 5 "range" { ranges := parsePageRanges "3-1, abc" } "doc.pdf"
      = some (.ok []) := by
  refine ⟨by decide, fun totalPages originalFilename => ?_, by decide⟩
  simp only [show parsePageRanges "3-1, abc" = [] from by decide]
  rfl

/-- The length of a contiguous index list. -/
theorem pageIndicesFromTo_length (a b : Int) :
    (pageIndicesFromTo a b).length = (b - a + 1).toNat := by
  unfold pageIndicesFromTo
  rw [List.length_map, List.length_range]

/-- A contiguous index list is strictly ascending. -/
theorem pageIndicesFromTo_sorted (a b : Int) :
    (pageIndicesFromTo a b).Sorted (· < ·) := by
  unfold pageIndicesFromTo
  refine List.Pairwise.map _ (fun x y (hxy : x < y) => ?_) (List.pairwise_lt_range _)
  simp only [Int.ofNat_eq_coe]
  omega

/-- C4: for ranges with `1 ≤ start ≤ end ≤ totalPages`, `splitByRanges` maps
each range, in input order and without merging, to a result whose 0-based
page indices are exactly `start-1, ..., end-1`; that index list has length
`end - start + 1` and is strictly ascending.  Overlapping ranges are not
special-cased: each range contributes its own independent result. -/
theorem C4_in_bounds_ranges_exact (totalPages : Int) (ranges : List PageRange)
    (originalFilename : String)
    (h : ∀ r ∈ ranges, 1 ≤ r.start ∧ r.start ≤ r.stop ∧ r.stop ≤ totalPages) :
    splitByRanges totalPages ranges originalFilename
      = ranges.map (fun range =>
          { filename := generateFilename originalFilename
              ("range_" ++ toString range.start ++ "-" ++ toString range.stop)
            pageIndices := pageIndicesFromTo (range.start - 1) (range.stop - 1)
            pageInfo := "Pages " ++ toString range.start ++ "-" ++ toString range.stop }) ∧
    ∀ r ∈ ranges,
      (pageIndicesFromTo (r.start - 1) (r.stop - 1)).length = (r.stop - r.start + 1).toNat ∧
      (pageIndicesFromTo (r.start - 1) (r.stop - 1)).Sorted (· < ·) := by
  constructor
  · induction ranges with
    | nil => rfl
    | cons q qs ih =>
      obtain ⟨hq1, hq2, hq3⟩ := h q (by simp)
      have hsome : rangeToResult totalPages originalFilename q = some
          { filename := generateFilename originalFilename
              ("range_" ++ toString q.start ++ "-" ++ toString q.stop)
            pageIndices := pageIndicesFromTo (q.start - 1) (q.stop - 1)
            pageInfo := "Pages " ++ toString q.start ++ "-" ++ toString q.stop } := by
        unfold rangeToResult
        have e1 : max 1 q.start = q.start := by omega
        have e2 : min q.stop totalPages = q.stop := by omega
        rw [e1, e2, if_neg]
        omega
      simp only [splitByRanges, List.filterMap_cons, hsome, List.map_cons]
      exact congrArg _ (ih (fun p hp => h p (by simp [hp])))
  · intro r hr
    obtain ⟨h1, h2, h3⟩ := h r hr
    refine ⟨?_, pageIndicesFromTo_sorted _ _⟩
    rw [pageIndicesFromTo_length]
    omega

/-- Witness for C4 on a 10-page document with the overlapping in-bounds
ranges `2-4` and `3-3`. -/
theorem C4_in_bounds_ranges_exact_witness :
    splitByRanges 10 [⟨2, 4⟩, ⟨3, 3⟩] "doc.pdf"
      = [{ filename := "doc_range_2-4.pdf"
           pageIndices := pageIndicesFromTo 1 3
           pageInfo := "Pages 2-4" },
         { filename := "doc_range_3-3.pdf"
           pageIndices := pageIndicesFromTo 2 2
           pageInfo := "Pages 3-3" }] ∧
    (pageIndicesFromTo 1 3).length = (3 : Int).toNat ∧
    (pageIndicesFromTo 1 3).Sorted (· < ·) := by
  obtain ⟨hmap, hper⟩ := C4_in_bounds_ranges_exact 10 [⟨2, 4⟩, ⟨3, 3⟩] "doc.pdf"
    (by intro r hr; fin_cases hr <;> exact ⟨by decide, by decide, by decide⟩)
  refine ⟨hmap, ?_, ?_⟩
  · have := (hper ⟨2, 4⟩ (by simp)).1
    simpa using this
  · exact (hper ⟨2, 4⟩ (by simp)).2

/-- C5: a range whose clamped 0-based start exceeds its clamped 0-based end
is dropped entirely — it contributes no result and raises no error — and a
plan consisting solely of out-of-bounds ranges (`start > totalPages` or
`end < 1`) yields the empty result list without throwing. -/
theorem C5_invalid_range_dropped (totalPages : Int) (r : PageRange)
    (rs1 rs2 : List PageRange) (originalFilename : String)
    (hr : min r.stop totalPages - 1 < max 1 r.start - 1) :
    splitByRanges totalPages (rs1 ++ r :: rs2) originalFilename
      = splitByRanges totalPages (rs1 ++ rs2) originalFilename ∧
    (∀ ranges : List PageRange, (∀ q ∈ ranges, totalPages < q.start ∨ q.stop < 1) →
      splitByRanges totalPages ranges originalFilename = []) := by
  have hnone : ∀ q : PageRange, min q.stop totalPages - 1 < max 1 q.start - 1 →
      rangeToResult totalPages originalFilename q = none := by
    intro q hq
    unfold rangeToResult
    rw [if_pos]
    left
    omega
  constructor
  · simp [splitByRanges, List.filterMap_append, List.filterMap_cons, hnone r hr]
  · intro ranges hall
    induction ranges with
    | nil => rfl
    | cons q qs ih =>
      have hq := hall q (by simp)
      have h2 : rangeToResult totalPages originalFilename q = none := by
        apply hnone
        omega
      simp only [splitByRanges, List.filterMap_cons, h2]
      exact ih (fun p hp => hall p (by simp [hp]))

/-- Witness for C5: on a 10-page document the range `11-12` is dropped from
between two valid ranges, and a plan of only out-of-bounds ranges yields
zero results. -/
theorem C5_invalid_range_dropped_witness :
    (splitByRanges 10 [⟨2, 4⟩, ⟨11, 12⟩, ⟨3, 3⟩] "doc.pdf"
      = splitByRanges 10 [⟨2, 4⟩, ⟨3, 3⟩] "doc.pdf") ∧
    splitByRanges 10 [⟨11, 12⟩, ⟨0, 0⟩] "doc.pdf" = [] := by
  obtain ⟨hdrop, hempty⟩ :=
    C5_invalid_range_dropped 10 ⟨11, 12⟩ [⟨2, 4⟩] [⟨3, 3⟩] "doc.pdf" (by decide)
  refine ⟨hdrop, hempty [⟨11, 12⟩, ⟨0, 0⟩] ?_⟩
  intro q hq
  fin_cases hq
  · left; decide
  · right; decide

/-- C6 fails on the code: `extractPages` does not sort.  With the page list
`[3, 1]` on a 5-page document the single result's 0-based indices are
`[2, 0]` — the valid pages in input order — not the ascending `[0, 2]` the
claim requires for every page set. -/
theorem C6_extract_not_sorted_counterexample :
    extractPages 5 [3, 1] "doc.pdf"
      = .ok [{ filename := "doc_extracted_pages_3-1.pdf",
               pageIndices := [2, 0],
               pageInfo := "Pages 3, 1" }] ∧
    ¬ ([2, 0] : List Int).Sorted (· ≤ ·) := by
  exact ⟨by decide, by decide⟩

/-- C6 amended: if no page lies within `[1, totalPages]`, `extractPages`
throws `'No valid pages to extract'` and produces no result; otherwise it
produces exactly one result whose 0-based indices are the valid pages in
their given input order converted to 0-based — ascending only when the
input is already sorted, as it is when produced by `parsePageNumbers`. -/
theorem C6_extract_filter_order (totalPages : Int) (pages : List Int)
    (originalFilename : String) :
    (pages.filter (fun p => 1 ≤ p ∧ p ≤ totalPages) = [] →
      extractPages totalPages pages originalFilename
        = .error "No valid pages to extract") ∧
    (pages.filter (fun p => 1 ≤ p ∧ p ≤ totalPages) ≠ [] →
      extractPages totalPages pages originalFilename = .ok
        [{ filename := generateFilename originalFilename
             ("extracted_pages_"
               ++ joinSep "-" (pages.filter (fun p => 1 ≤ p ∧ p ≤ totalPages)))
           pageIndices := (pages.filter (fun p => 1 ≤ p ∧ p ≤ totalPages)).map
             (fun p => p - 1)
           pageInfo := "Pages "
             ++ joinSep ", " (pages.filter (fun p => 1 ≤ p ∧ p ≤ totalPages)) }]) ∧
    (pages.Sorted (· ≤ ·) →
      ∀ rs, extractPages totalPages pages originalFilename = .ok rs →
        ∀ r ∈ rs, r.pageIndices.Sorted (· ≤ ·)) := by
  have hempty : pages.filter (fun p => 1 ≤ p ∧ p ≤ totalPages) = [] →
      extractPages totalPages pages originalFilename
        = .error "No valid pages to extract" := by
    intro h
    unfold extractPages
    rw [h]
    rfl
  have hok : pages.filter (fun p => 1 ≤ p ∧ p ≤ totalPages) ≠ [] →
      extractPages totalPages pages originalFilename = .ok
        [{ filename := generateFilename originalFilename
             ("extracted_pages_"
               ++ joinSep "-" (pages.filter (fun p => 1 ≤ p ∧ p ≤ totalPages)))
           pageIndices := (pages.filter (fun p => 1 ≤ p ∧ p ≤ totalPages)).map
             (fun p => p - 1)
           pageInfo := "Pages "
             ++ joinSep ", " (pages.filter (fun p => 1 ≤ p ∧ p ≤ totalPages)) }] := by
    intro h
    rcases hF : pages.filter (fun p => 1 ≤ p ∧ p ≤ totalPages) with _ | ⟨a, as⟩
    · exact absurd hF h
    · unfold extractPages
      rw [hF]
      rfl
  refine ⟨hempty, hok, ?_⟩
  intro hsorted rs hrs r hr
  by_cases hf : pages.filter (fun p => 1 ≤ p ∧ p ≤ totalPages) = []
  · rw [hempty hf] at hrs
    exact absurd hrs (by simp)
  · rw [hok hf] at hrs
    obtain rfl := Except.ok.inj hrs
    simp only [List.mem_singleton] at hr
    subst hr
    exact List.Pairwise.map _ (fun x y hxy => by omega)
      (List.Pairwise.filter _ hsorted)

/-- Witness for C6 amended: a page list entirely outside `[1, 5]` throws,
and the sorted list `[1, 3, 5]` extracts to ascending indices. -/
theorem C6_extract_filter_order_witness :
    extractPages 5 [7, 0, -2] "doc.pdf" = .error "No valid pages to extract" ∧
    extractPages 5 [1, 3, 5] "doc.pdf" = .ok
      [{ filename := generateFilename "doc.pdf" ("extracted_pages_" ++ joinSep "-" [1, 3, 5])
         pageIndices := [0, 2, 4]
         pageInfo := "Pages " ++ joinSep ", " [1, 3, 5] }] := by
  constructor
  · exact (C6_extract_filter_order 5 [7, 0, -2] "doc.pdf").1 (by decide)
  · have h := (C6_extract_filter_order 5 [1, 3, 5] "doc.pdf").2.1 (by decide)
    simpa using h

/-- C7 fails on the code: `generateFilename` has no fallback for an empty
base name.  For the original filename `".pdf"` stripping leaves the empty
string and the output is `"_x.pdf"`: an empty base, not a fixed default
base. -/
theorem C7_no_fallback_counterexample :
    generateFilename ".pdf" "x" = "_x.pdf" ∧ generateFilename ".pdf" "x" ≠ "x.pdf" := by
  exact ⟨by decide, by decide⟩

/-- C7 amended: `generateFilename` strips exactly one trailing
`.pdf`/`.PDF` extension case-insensitively and appends `_{suffix}.pdf`; the
two claimed examples hold, but when stripping leaves nothing the base name
is simply empty — there is no fixed default base.  The third conjunct shows
exactly one extension is stripped even when the name ends in two, and the
fourth that names not ending in the extension are kept whole. -/
theorem C7_strip_one_extension (s suffixStr : String) :
    generateFilename "Report.PDF" "pages_1-3" = "Report_pages_1-3.pdf" ∧
    generateFilename "x.pdf" "extracted_pages_2-4" = "x_extracted_pages_2-4.pdf" ∧
    generateFilename (s ++ ".pdf") suffixStr = s ++ "_" ++ suffixStr ++ ".pdf" ∧
    (¬ (4 ≤ s.data.length ∧
        (s.data.drop (s.data.length - 4)).map Char.toLower = ['.', 'p', 'd', 'f']) →
      generateFilename s suffixStr = s ++ "_" ++ suffixStr ++ ".pdf") := by
  have hmk : ∀ t : String, String.mk t.data = t := fun t => String.ext rfl
  have hpdf : (".pdf" : String).data = ['.', 'p', 'd', 'f'] := by decide
  refine ⟨by decide, by decide, ?_, ?_⟩
  · simp only [generateFilename, String.data_append, hpdf]
    have hlen : (s.data ++ ['.', 'p', 'd', 'f']).length = s.data.length + 4 := by
      simp
    rw [hlen, Nat.add_sub_cancel, if_pos]
    · rw [List.take_left, hmk]
    · exact ⟨by omega, by rw [List.drop_left]; decide⟩
  · intro h
    simp only [generateFilename]
    rw [if_neg h, hmk]

/-- Witness for C7 amended at a name with no `.pdf` extension. -/
theorem C7_strip_one_extension_witness :
    generateFilename "notes.txt" "s" = "notes.txt_s.pdf" :=
  (C7_strip_one_extension "notes.txt" "s").2.2.2 (by decide)

/-- An empty contiguous index list when the bounds cross. -/
theorem pageIndicesFromTo_eq_nil (a b : Int) (h : b < a) : pageIndicesFromTo a b = [] := by
  unfold pageIndicesFromTo
  have h0 : (b - a + 1).toNat = 0 := by omega
  rw [h0]
  rfl

/-- Two adjacent contiguous index lists concatenate to one. -/
theorem pageIndicesFromTo_append (a c b : Int) (h1 : a ≤ c) (h2 : c ≤ b + 1) :
    pageIndicesFromTo a (c - 1) ++ pageIndicesFromTo c b = pageIndicesFromTo a b := by
  unfold pageIndicesFromTo
  have hn : (b - a + 1).toNat = (c - 1 - a + 1).toNat + (b - c + 1).toNat := by omega
  rw [hn, List.range_add, List.map_append, List.map_map]
  congr 1
  have hn1 : (((c - 1 - a + 1).toNat : Nat) : Int) = c - a := by omega
  refine List.map_congr_left (fun x hx => ?_)
  simp only [Function.comp_apply, Int.ofNat_eq_coe]
  push_cast
  omega

/-- Peeling one chunk off a ceiling division: `ceil(m / K)` is one more than
`ceil((m - K) / K)` when `m ≥ 1` (formulated with `ceil(m / K)` written as
`(m + (K - 1)) / K` in truncated `Nat` division). -/
theorem ceil_div_step (m K : Nat) (hm : 1 ≤ m) (hK : 1 ≤ K) :
    (m - K + (K - 1)) / K + 1 = (m + (K - 1)) / K := by
  rcases le_or_lt K m with hle | hlt
  · have h : m + (K - 1) = (m - K + (K - 1)) + K := by omega
    rw [h, Nat.add_div_right _ (by omega)]
  · have h1 : m - K = 0 := by omega
    rw [h1, Nat.div_eq_of_lt (by omega)]
    have h2 : (m + (K - 1)) / K = 1 :=
      Nat.div_eq_of_lt_le (by omega) (by omega)
    omega

/-- Full specification of the `splitByPages` loop from position `i`: with
`pagesPerFile = k ≥ 1` and enough fuel, the loop succeeds, produces
`ceil((N - i) / k)` chunks, chunk `j` runs from page `i + j*k` to page
`min(i + (j+1)*k, N) - 1`, and the chunks' page indices concatenate to
exactly `i, i+1, ..., N-1`. -/
theorem splitByPagesLoop_spec (N k : Int) (fn : String) (hk : 1 ≤ k) :
    ∀ (fuel : Nat) (i : Int), (N - i).toNat ≤ fuel →
    ∃ rs, splitByPagesLoop N k fn i fuel = some rs ∧
      rs.length = ((N - i).toNat + (k.toNat - 1)) / k.toNat ∧
      (∀ j (hj : j < rs.length),
        rs.get ⟨j, hj⟩ = mkPagesResult fn (i + j * k) (min (i + (j + 1) * k) N - 1)) ∧
      (rs.map SplitResult.pageIndices).flatten = pageIndicesFromTo i (N - 1) := by
  intro fuel
  induction fuel with
  | zero =>
    intro i hfuel
    have hiN : ¬ i < N := by omega
    refine ⟨[], ?_, ?_, ?_, ?_⟩
    · unfold splitByPagesLoop
      rw [if_neg hiN]
    · have h0 : (N - i).toNat = 0 := by omega
      rw [h0, Nat.zero_add, Nat.div_eq_of_lt (by omega)]
      rfl
    · intro j hj
      exact absurd hj (by simp)
    · rw [List.map_nil, List.flatten_nil, pageIndicesFromTo_eq_nil i (N - 1) (by omega)]
  | succ fuel ih =>
    intro i hfuel
    by_cases hiN : i < N
    · obtain ⟨rs', hsome, hlen, hget, hjoin⟩ := ih (i + k) (by omega)
      refine ⟨mkPagesResult fn i (min (i + k - 1) (N - 1)) :: rs', ?_, ?_, ?_, ?_⟩
      · unfold splitByPagesLoop
        rw [if_pos hiN]
        show (splitByPagesLoop N k fn (i + k) fuel).map
            (fun rest => mkPagesResult fn i (min (i + k - 1) (N - 1)) :: rest)
          = some (mkPagesResult fn i (min (i + k - 1) (N - 1)) :: rs')
        rw [hsome]
        rfl
      · rw [List.length_cons, hlen]
        have hsub : (N - (i + k)).toNat = (N - i).toNat - k.toNat := by omega
        rw [hsub]
        exact ceil_div_step (N - i).toNat k.toNat (by omega) (by omega)
      · intro j hj
        match j with
        | 0 =>
          show mkPagesResult fn i (min (i + k - 1) (N - 1)) = _
          congr 1
          · push_cast
            ring
          · push_cast
            omega
        | j + 1 =>
          have hj' : j < rs'.length := by simpa using hj
          show rs'.get ⟨j, hj'⟩ = _
          rw [hget j hj']
          congr 1
          · push_cast
            ring
          · have h : i + k + ((j : Int) + 1) * k = i + ((((j + 1) : Nat) : Int) + 1) * k := by
              push_cast
              ring
            rw [h]
      · rw [List.map_cons, List.flatten_cons, hjoin]
        show pageIndicesFromTo i (min (i + k - 1) (N - 1)) ++ _ = _
        by_cases hik : i + k ≤ N
        · have emin : min (i + k - 1) (N - 1) = (i + k) - 1 := by omega
          rw [emin]
          exact pageIndicesFromTo_append i (i + k) (N - 1) (by omega) (by omega)
        · have emin : min (i + k - 1) (N - 1) = N - 1 := by omega
          rw [emin, pageIndicesFromTo_eq_nil (i + k) (N - 1) (by omega), List.append_nil]
    · refine ⟨[], ?_, ?_, ?_, ?_⟩
      · unfold splitByPagesLoop
        rw [if_neg hiN]
      · have h0 : (N - i).toNat = 0 := by omega
        rw [h0, Nat.zero_add, Nat.div_eq_of_lt (by omega)]
        rfl
      · intro j hj
        exact absurd hj (by simp)
      · rw [List.map_nil, List.flatten_nil, pageIndicesFromTo_eq_nil i (N - 1) (by omega)]

/-- The contiguous index list from 0 to `N - 1` is `[0, N)`. -/
theorem pageIndicesFromTo_zero (N : Nat) :
    pageIndicesFromTo 0 ((N : Int) - 1) = (List.range N).map Int.ofNat := by
  unfold pageIndicesFromTo
  have h : ((N : Int) - 1 - 0 + 1).toNat = N := by omega
  rw [h]
  exact List.map_congr_left (fun x hx => by omega)

/-- C1: for a document with `N ≥ 0` pages and `pagesPerFile = k ≥ 1`,
`splitByPages` terminates and produces exactly `ceil(N / k)` results; chunk
`j` (0-based) covers the 0-based pages `j*k` through `min((j+1)*k, N) - 1`
(the claim's 1-based `[j*k+1, min((j+1)*k, N)]`), and concatenating the
results' page-index lists in output order gives exactly `0, 1, ..., N-1`:
every page once, in order, with no gaps and no overlaps. -/
theorem C1_splitByPages_partition (N k : Nat) (fn : String) (hk : 1 ≤ k) :
    ∃ rs, splitByPages (N : Int) (k : Int) fn = some rs ∧
      rs.length = (N + k - 1) / k ∧
      (∀ j (hj : j < rs.length),
        rs.get ⟨j, hj⟩ = mkPagesResult fn ((j : Int) * (k : Int))
          (min (((j : Int) + 1) * (k : Int)) (N : Int) - 1)) ∧
      (rs.map SplitResult.pageIndices).flatten = (List.range N).map Int.ofNat := by
  obtain ⟨rs, hsome, hlen, hget, hflat⟩ :=
    splitByPagesLoop_spec (N : Int) (k : Int) fn (by exact_mod_cast hk)
      ((N : Int)).toNat 0 (by omega)
  refine ⟨rs, hsome, ?_, ?_, ?_⟩
  · rw [hlen]
    have h1 : ((N : Int) - 0).toNat = N := by omega
    have h2 : ((k : Int)).toNat = k := by omega
    rw [h1, h2]
    congr 1
    omega
  · intro j hj
    rw [hget j hj]
    congr 1
    · ring
    · have h : (0 : Int) + ((j : Int) + 1) * (k : Int) = ((j : Int) + 1) * (k : Int) :=
        zero_add _
      rw [h]
  · rw [hflat]
    exact pageIndicesFromTo_zero N

/-- Witness for C1 on a 5-page document with 2 pages per file. -/
theorem C1_splitByPages_partition_witness :
    ∃ rs, splitByPages ((5 : Nat) : Int) ((2 : Nat) : Int) "doc.pdf" = some rs ∧
      rs.length = (5 + 2 - 1) / 2 ∧
      (∀ j (hj : j < rs.length),
        rs.get ⟨j, hj⟩ = mkPagesResult "doc.pdf" ((j : Int) * ((2 : Nat) : Int))
          (min (((j : Int) + 1) * ((2 : Nat) : Int)) ((5 : Nat) : Int) - 1)) ∧
      (rs.map SplitResult.pageIndices).flatten = (List.range 5).map Int.ofNat :=
  C1_splitByPages_partition 5 2 "doc.pdf" (by decide)

/-- C9: with `pagesPerFile = k ≥ 1` the chunking loop of `splitByPages`
terminates within `totalPages` iterations and produces finitely many
(`ceil(N / k)`) results; the hypothesis `k ≥ 1` is established only by the
caller's option validation (`getSplitOptions` never returns a
`pagesPerFile < 1`), not inside the engine: for `k ≤ 0` the engine's loop
runs forever (no amount of fuel finishes it). -/
theorem C9_loop_terminates (N k : Int) (fn : String) (hk : 1 ≤ k) (hN : 0 ≤ N) :
    (∃ rs, splitByPages N k fn = some rs ∧
      rs.length = (N.toNat + (k.toNat - 1)) / k.toNat) ∧
    (∀ value q, getSplitOptionsPages value = some q → 1 ≤ q) ∧
    (∀ k0 : Int, k0 ≤ 0 → 0 < N →
      splitByPages N k0 fn = none ∧
      ∀ (i : Int) (fuel : Nat), i < N → splitByPagesLoop N k0 fn i fuel = none) := by
  refine ⟨?_, ?_, ?_⟩
  · obtain ⟨rs, hsome, hlen, _, _⟩ :=
      splitByPagesLoop_spec N k fn hk N.toNat 0 (by omega)
    refine ⟨rs, hsome, ?_⟩
    rw [hlen]
    congr 2
    omega
  · intro value q h
    unfold getSplitOptionsPages at h
    rcases hp : parseInt value with _ | n
    · rw [hp] at h
      exact absurd h (by simp)
    · rw [hp] at h
      have h2 : (if n = 0 ∨ n < 1 then (none : Option Int) else some n) = some q := h
      by_cases h0 : n = 0 ∨ n < 1
      · rw [if_pos h0] at h2
        exact absurd h2 (by simp)
      · rw [if_neg h0] at h2
        obtain rfl := Option.some.inj h2
        omega
  · intro k0 hk0 hN0
    have hloop : ∀ (fuel : Nat) (i : Int), i < N →
        splitByPagesLoop N k0 fn i fuel = none := by
      intro fuel
      induction fuel with
      | zero =>
        intro i hiN
        unfold splitByPagesLoop
        rw [if_pos hiN]
      | succ fuel ih =>
        intro i hiN
        unfold splitByPagesLoop
        rw [if_pos hiN]
        show (splitByPagesLoop N k0 fn (i + k0) fuel).map
            (fun rest => mkPagesResult fn i (min (i + k0 - 1) (N - 1)) :: rest) = none
        rw [ih (i + k0) (by omega)]
        rfl
    exact ⟨hloop N.toNat 0 hN0, fun i fuel hiN => hloop fuel i hiN⟩

/-- Witness for C9 on a 5-page document with 2 pages per file. -/
theorem C9_loop_terminates_witness :
    (∃ rs, splitByPages 5 2 "doc.pdf" = some rs ∧
      rs.length = ((5 : Int).toNat + ((2 : Int).toNat - 1)) / (2 : Int).toNat) ∧
    (∀ value q, getSplitOptionsPages value = some q → 1 ≤ q) ∧
    (∀ k0 : Int, k0 ≤ 0 → 0 < (5 : Int) →
      splitByPages 5 k0 "doc.pdf" = none ∧
      ∀ (i : Int) (fuel : Nat), i < 5 → splitByPagesLoop 5 k0 "doc.pdf" i fuel = none) :=
  C9_loop_terminates 5 2 "doc.pdf" (by decide) (by decide)

/-- Looking up an existing document is unaffected by `create`. -/
theorem create_getDoc (h : PDFHeap) (id : Nat) (hid : id < h.docs.length) :
    (h.create).1.getDoc id = h.getDoc id := by
  unfold PDFHeap.create PDFHeap.getDoc
  exact List.getD_append _ _ _ _ hid

/-- The document returned by `create` starts empty. -/
theorem create_getDoc_new (h : PDFHeap) :
    (h.create).1.getDoc h.docs.length = ⟨[]⟩ := by
  unfold PDFHeap.create PDFHeap.getDoc
  rw [List.getD_append_right _ _ _ _ (le_refl _)]
  simp

/-- `addPage` never changes the number of documents in the store. -/
theorem addPage_length (h : PDFHeap) (id : Nat) (p : Nat) :
    (h.addPage id p).docs.length = h.docs.length := by
  unfold PDFHeap.addPage
  exact List.length_set _ _ _

/-- `addPage` appends to the addressed document. -/
theorem addPage_getDoc_self (h : PDFHeap) (id : Nat) (p : Nat)
    (hid : id < h.docs.length) :
    (h.addPage id p).getDoc id = ⟨(h.getDoc id).pages ++ [p]⟩ := by
  unfold PDFHeap.addPage PDFHeap.getDoc
  simp only [List.getD, List.get?_eq_getElem?]
  rw [List.getElem?_set_self (by simpa using hid)]
  rfl

/-- `addPage` leaves every other document untouched. -/
theorem addPage_getDoc_other (h : PDFHeap) (id j : Nat) (p : Nat) (hj : j ≠ id) :
    (h.addPage id p).getDoc j = h.getDoc j := by
  unfold PDFHeap.addPage PDFHeap.getDoc
  simp only [List.getD, List.get?_eq_getElem?]
  rw [List.getElem?_set_ne (by omega)]

/-- Appending a list of pages one by one (`copiedPages.forEach(addPage)`)
appends exactly that list to the addressed document and changes nothing
else. -/
theorem foldl_addPage_spec (ps : List Nat) : ∀ (h : PDFHeap) (id : Nat),
    id < h.docs.length →
    (ps.foldl (fun acc page => acc.addPage id page) h).docs.length = h.docs.length ∧
    (ps.foldl (fun acc page => acc.addPage id page) h).getDoc id
      = ⟨(h.getDoc id).pages ++ ps⟩ ∧
    ∀ j, j ≠ id → (ps.foldl (fun acc page => acc.addPage id page) h).getDoc j
      = h.getDoc j := by
  induction ps with
  | nil =>
    intro h id hid
    refine ⟨rfl, ?_, fun j hj => rfl⟩
    rw [List.append_nil]
    rfl
  | cons p ps ih =>
    intro h id hid
    have hid' : id < (h.addPage id p).docs.length := by
      rw [addPage_length]
      exact hid
    obtain ⟨hlen, hself, hother⟩ := ih (h.addPage id p) id hid'
    refine ⟨?_, ?_, ?_⟩
    · show (ps.foldl (fun acc page => acc.addPage id page) (h.addPage id p)).docs.length = _
      rw [hlen, addPage_length]
    · show (ps.foldl (fun acc page => acc.addPage id page) (h.addPage id p)).getDoc id = _
      rw [hself, addPage_getDoc_self h id p hid]
      simp
    · intro j hj
      show (ps.foldl (fun acc page => acc.addPage id page) (h.addPage id p)).getDoc j = _
      rw [hother j hj, addPage_getDoc_other h id j p hj]

/-- `copyPages` reads only the source document: two stores agreeing on it
copy the same pages. -/
theorem copyPages_congr (h1 h2 : PDFHeap) (srcId : Nat) (indices : List Int)
    (hdoc : h1.getDoc srcId = h2.getDoc srcId) :
    h1.copyPages srcId indices = h2.copyPages srcId indices := by
  unfold PDFHeap.copyPages
  rw [hdoc]

/-- Full specification of the create/copy/append skeleton: the store grows
by exactly one document, which is the fresh one and ends up holding exactly
the copied pages; every pre-existing document is unchanged. -/
theorem copyPagesIntoNew_spec (h : PDFHeap) (srcId : Nat) (indices : List Int)
    (hsrc : srcId < h.docs.length) :
    (h.copyPagesIntoNew srcId indices).1.docs.length = h.docs.length + 1 ∧
    (h.copyPagesIntoNew srcId indices).2 = h.docs.length ∧
    (∀ id, id < h.docs.length →
      (h.copyPagesIntoNew srcId indices).1.getDoc id = h.getDoc id) ∧
    ((h.copyPagesIntoNew srcId indices).1.getDoc
        (h.copyPagesIntoNew srcId indices).2).pages = h.copyPages srcId indices := by
  have hclen : (h.create).1.docs.length = h.docs.length + 1 := by
    unfold PDFHeap.create
    simp
  have hidlt : h.docs.length < (h.create).1.docs.length := by omega
  obtain ⟨hlen, hself, hother⟩ :=
    foldl_addPage_spec ((h.create).1.copyPages srcId indices) (h.create).1
      h.docs.length hidlt
  have e1 : (h.copyPagesIntoNew srcId indices).1
      = ((h.create).1.copyPages srcId indices).foldl
          (fun acc page => acc.addPage h.docs.length page) (h.create).1 := rfl
  have e2 : (h.copyPagesIntoNew srcId indices).2 = h.docs.length := rfl
  refine ⟨?_, e2, ?_, ?_⟩
  · rw [e1, hlen, hclen]
  · intro id hidm
    rw [e1, hother id (by omega), create_getDoc h id hidm]
  · rw [e1, e2, hself, create_getDoc_new]
    show [] ++ (h.create).1.copyPages srcId indices = _
    rw [List.nil_append]
    exact copyPages_congr _ _ _ _ (create_getDoc h srcId hsrc)

/-- C8: the page-copy skeleton used by every split mode
(`createPDFFromPages` for `pages`/`range`, and the document-building part of
`extractPages`) never mutates the source document — after the operation the
source's pages (and hence its page count) are exactly as before, as is
every other pre-existing document; the output is a freshly created document
distinct from the source holding exactly the copied pages; and, the model
being explicit state passing of the store, repeating the same copy from the
updated store yields a new document with the same pages — repeated splits
from one load produce the same groups. -/
theorem C8_source_never_mutated (h : PDFHeap) (srcId : Nat) (indices : List Int)
    (hsrc : srcId < h.docs.length) :
    (h.copyPagesIntoNew srcId indices).1.getDoc srcId = h.getDoc srcId ∧
    (∀ id, id < h.docs.length →
      (h.copyPagesIntoNew srcId indices).1.getDoc id = h.getDoc id) ∧
    (h.copyPagesIntoNew srcId indices).2 = h.docs.length ∧
    srcId ≠ (h.copyPagesIntoNew srcId indices).2 ∧
    ((h.copyPagesIntoNew srcId indices).1.getDoc
        (h.copyPagesIntoNew srcId indices).2).pages = h.copyPages srcId indices ∧
    (∀ sp ep, h.createPDFFromPages srcId sp ep
        = h.copyPagesIntoNew srcId (pageIndicesFromTo sp ep)) ∧
    (((h.copyPagesIntoNew srcId indices).1.copyPagesIntoNew srcId indices).1.getDoc
        ((h.copyPagesIntoNew srcId indices).1.copyPagesIntoNew srcId indices).2).pages
      = ((h.copyPagesIntoNew srcId indices).1.getDoc
          (h.copyPagesIntoNew srcId indices).2).pages := by
  obtain ⟨hlen1, hid1, hold1, hnew1⟩ := copyPagesIntoNew_spec h srcId indices hsrc
  have hsrc2 : srcId < (h.copyPagesIntoNew srcId indices).1.docs.length := by omega
  obtain ⟨hlen2, hid2, hold2, hnew2⟩ :=
    copyPagesIntoNew_spec (h.copyPagesIntoNew srcId indices).1 srcId indices hsrc2
  have hsame : (h.copyPagesIntoNew srcId indices).1.getDoc srcId = h.getDoc srcId :=
    hold1 srcId hsrc
  refine ⟨hsame, hold1, hid1, by omega, hnew1, fun sp ep => rfl, ?_⟩
  rw [hnew2, hnew1]
  exact copyPages_congr _ _ _ _ hsame

/-- Witness for C8 on a one-document store with three pages, copying pages
0 and 2. -/
theorem C8_source_never_mutated_witness :
    ((PDFHeap.mk [⟨[10, 20, 30]⟩]).copyPagesIntoNew 0 [0, 2]).1.getDoc 0
        = (PDFHeap.mk [⟨[10, 20, 30]⟩]).getDoc 0 ∧
    (((PDFHeap.mk [⟨[10, 20, 30]⟩]).copyPagesIntoNew 0 [0, 2]).1.getDoc
        ((PDFHeap.mk [⟨[10, 20, 30]⟩]).copyPagesIntoNew 0 [0, 2]).2).pages
      = (PDFHeap.mk [⟨[10, 20, 30]⟩]).copyPages 0 [0, 2] :=
  ⟨(C8_source_never_mutated ⟨[⟨[10, 20, 30]⟩]⟩ 0 [0, 2] (by decide)).1,
   (C8_source_never_mutated ⟨[⟨[10, 20, 30]⟩]⟩ 0 [0, 2] (by decide)).2.2.2.2.1⟩
